import Mathlib

/-!
Verification of the rendition pipeline of the video-stream repository
(`src/app.py`).  The Python source is shallowly embedded: pure helpers become
Lean functions, Python floats are modelled as rationals, Python `int` as `Int`,
dict-backed records as structures with `Option` fields (an absent key is
`none`), and fallible dynamic operations return `Except`.  CPython's stable
`list.sort(key=..., reverse=True)` is modelled by a stable insertion sort.
-/

namespace VideoStream

/-! ## Stable sorting, as CPython's `sorted` / `list.sort` behave

`insertDescBy key` places a new element before the first resident whose key is
not greater.  Folding it from the right over the input list yields the stable
descending sort: elements with equal keys keep their input order, exactly as
CPython's stable sort with `reverse=True` does. -/

def insertDescBy {α β : Type} [LinearOrder β] (key : α → β) (x : α) : List α → List α
  | [] => [x]
  | y :: ys => if key y ≤ key x then x :: y :: ys else y :: insertDescBy key x ys

def sortDescBy {α β : Type} [LinearOrder β] (key : α → β) (l : List α) : List α :=
  l.foldr (insertDescBy key) []

/-- Ascending stable insertion (CPython's `sorted(...)` without `reverse`). -/
def insertAscBy {α β : Type} [LinearOrder β] (key : α → β) (x : α) : List α → List α
  | [] => [x]
  | y :: ys => if key x ≤ key y then x :: y :: ys else y :: insertAscBy key x ys

def sortAscBy {α β : Type} [LinearOrder β] (key : α → β) (l : List α) : List α :=
  l.foldr (insertAscBy key) []

theorem insertDescBy_perm {α β : Type} [LinearOrder β] (key : α → β) (x : α)
    (l : List α) : List.Perm (insertDescBy key x l) (x :: l) := by
  induction l with
  | nil => exact List.Perm.refl _
  | cons y ys ih =>
    unfold insertDescBy
    split
    · exact List.Perm.refl _
    · exact (ih.cons y).trans (List.Perm.swap x y ys)

theorem sortDescBy_perm {α β : Type} [LinearOrder β] (key : α → β) (l : List α) :
    List.Perm (sortDescBy key l) l := by
  induction l with
  | nil => exact List.Perm.refl _
  | cons x xs ih =>
    exact (insertDescBy_perm key x (sortDescBy key xs)).trans (ih.cons x)

theorem mem_sortDescBy {α β : Type} [LinearOrder β] (key : α → β) (l : List α)
    (a : α) : a ∈ sortDescBy key l ↔ a ∈ l :=
  (sortDescBy_perm key l).mem_iff

theorem insertDescBy_pairwise {α β : Type} [LinearOrder β] (key : α → β) (x : α)
    (l : List α) (h : l.Pairwise (fun a b => key b ≤ key a)) :
    (insertDescBy key x l).Pairwise (fun a b => key b ≤ key a) := by
  induction l with
  | nil => simp [insertDescBy]
  | cons y ys ih =>
    rcases List.pairwise_cons.mp h with ⟨hy, hys⟩
    unfold insertDescBy
    split
    · rename_i hle
      refine List.pairwise_cons.mpr ⟨?_, h⟩
      intro z hz
      rcases List.mem_cons.mp hz with rfl | hz
      · exact hle
      · exact (hy z hz).trans hle
    · rename_i hgt
      push_neg at hgt
      refine List.pairwise_cons.mpr ⟨?_, ih hys⟩
      intro z hz
      rcases List.mem_cons.mp ((insertDescBy_perm key x ys).mem_iff.mp hz) with rfl | hz'
      · exact le_of_lt hgt
      · exact hy z hz'

theorem sortDescBy_pairwise {α β : Type} [LinearOrder β] (key : α → β)
    (l : List α) : (sortDescBy key l).Pairwise (fun a b => key b ≤ key a) := by
  induction l with
  | nil => simp [sortDescBy]
  | cons x xs ih => exact insertDescBy_pairwise key x _ ih

theorem insertAscBy_perm {α β : Type} [LinearOrder β] (key : α → β) (x : α)
    (l : List α) : List.Perm (insertAscBy key x l) (x :: l) := by
  induction l with
  | nil => exact List.Perm.refl _
  | cons y ys ih =>
    unfold insertAscBy
    split
    · exact List.Perm.refl _
    · exact (ih.cons y).trans (List.Perm.swap x y ys)

theorem insertAscBy_pairwise {α β : Type} [LinearOrder β] (key : α → β) (x : α)
    (l : List α) (h : l.Pairwise (fun a b => key a ≤ key b)) :
    (insertAscBy key x l).Pairwise (fun a b => key a ≤ key b) := by
  induction l with
  | nil => simp [insertAscBy]
  | cons y ys ih =>
    rcases List.pairwise_cons.mp h with ⟨hy, hys⟩
    unfold insertAscBy
    split
    · rename_i hle
      refine List.pairwise_cons.mpr ⟨?_, h⟩
      intro z hz
      rcases List.mem_cons.mp hz with rfl | hz
      · exact hle
      · exact hle.trans (hy z hz)
    · rename_i hgt
      push_neg at hgt
      refine List.pairwise_cons.mpr ⟨?_, ih hys⟩
      intro z hz
      rcases List.mem_cons.mp ((insertAscBy_perm key x ys).mem_iff.mp hz) with rfl | hz'
      · exact le_of_lt hgt
      · exact hy z hz'

theorem sortAscBy_pairwise {α β : Type} [LinearOrder β] (key : α → β)
    (l : List α) : (sortAscBy key l).Pairwise (fun a b => key a ≤ key b) := by
  induction l with
  | nil => simp [sortAscBy]
  | cons x xs ih => exact insertAscBy_pairwise key x _ ih

theorem sortAscBy_perm {α β : Type} [LinearOrder β] (key : α → β) (l : List α) :
    List.Perm (sortAscBy key l) l := by
  induction l with
  | nil => exact List.Perm.refl _
  | cons x xs ih =>
    exact (insertAscBy_perm key x (sortAscBy key xs)).trans (ih.cons x)

/-- Stability of the descending insertion: the subsequence of elements whose
key equals any fixed `k` is untouched, i.e. ties keep their input order. -/
theorem insertDescBy_filter_key {α β : Type} [LinearOrder β] (key : α → β)
    (k : β) (x : α) (l : List α) :
    (insertDescBy key x l).filter (fun a => decide (key a = k)) =
      if key x = k then x :: l.filter (fun a => decide (key a = k))
      else l.filter (fun a => decide (key a = k)) := by
  induction l with
  | nil =>
    by_cases hx : key x = k <;> simp [insertDescBy, hx]
  | cons y ys ih =>
    unfold insertDescBy
    split
    · rename_i hle
      by_cases hx : key x = k <;> simp [List.filter_cons, hx]
    · rename_i hgt
      push_neg at hgt
      by_cases hy : key y = k
      · have hx : ¬ key x = k := by
          intro hx
          rw [hx, ← hy] at hgt
          exact lt_irrefl _ hgt
        simp [List.filter_cons, hy, hx, ih]
      · simp only [List.filter_cons]
        by_cases hx : key x = k <;> simp [hx, hy, ih]

theorem sortDescBy_filter_key {α β : Type} [LinearOrder β] (key : α → β)
    (k : β) (l : List α) :
    (sortDescBy key l).filter (fun a => decide (key a = k)) =
      l.filter (fun a => decide (key a = k)) := by
  induction l with
  | nil => rfl
  | cons x xs ih =>
    show (insertDescBy key x (sortDescBy key xs)).filter _ = _
    rw [insertDescBy_filter_key, List.filter_cons]
    by_cases hx : key x = k <;> simp [hx, ih]

/-- Decorate-sort-undecorate: sorting key/value pairs by `Prod.fst` agrees
with sorting the values by the key function (CPython precomputes sort keys). -/
theorem insertDescBy_pair {α β : Type} [LinearOrder β] (key : α → β) (x : α)
    (l : List α) :
    insertDescBy Prod.fst (key x, x) (l.map (fun e => (key e, e))) =
      (insertDescBy key x l).map (fun e => (key e, e)) := by
  induction l with
  | nil => rfl
  | cons y ys ih =>
    show insertDescBy Prod.fst (key x, x) ((key y, y) :: ys.map _) = _
    unfold insertDescBy
    split
    · rfl
    · simp [ih]

theorem sortDescBy_pair {α β : Type} [LinearOrder β] (key : α → β) (l : List α) :
    sortDescBy Prod.fst (l.map (fun e => (key e, e))) =
      (sortDescBy key l).map (fun e => (key e, e)) := by
  induction l with
  | nil => rfl
  | cons x xs ih =>
    show insertDescBy Prod.fst (key x, x) (sortDescBy Prod.fst (xs.map _)) = _
    rw [ih, insertDescBy_pair]
    rfl

theorem sortDescBy_pair_snd {α β : Type} [LinearOrder β] (key : α → β)
    (l : List α) :
    (sortDescBy Prod.fst (l.map (fun e => (key e, e)))).map Prod.snd =
      sortDescBy key l := by
  rw [sortDescBy_pair, List.map_map]
  have hid : (Prod.snd ∘ fun e : α => (key e, e)) = id := rfl
  rw [hid, List.map_id]

/-! ## RenditionPlanner (src/app.py lines 487-491)

`requested_resolutions = sorted(set(requested_resolutions), reverse=True)`
`eligible_resolutions  = [res for res in requested_resolutions if res <= source_height]`
`skipped_resolutions   = [res for res in requested_resolutions if res > source_height]`
`targets = [source_height] + [res for res in eligible_resolutions if res < source_height]` -/

def plan (source_height : Int) (requested : List Int) : List Int × List Int :=
  let requested_sorted := sortDescBy id requested.dedup
  let eligible_resolutions := requested_sorted.filter (fun r => r ≤ source_height)
  let skipped_resolutions := requested_sorted.filter (fun r => source_height < r)
  let targets := source_height :: eligible_resolutions.filter (fun r => r < source_height)
  (targets, skipped_resolutions)

theorem sortDescBy_id_nodup (l : List Int) (h : l.Nodup) :
    (sortDescBy id l).Nodup :=
  (sortDescBy_perm id l).nodup_iff.mpr h

theorem sortDescBy_id_strict (l : List Int) (h : l.Nodup) :
    (sortDescBy id l).Pairwise (· > ·) := by
  have h1 : (sortDescBy id l).Pairwise (fun a b => (id b : Int) ≤ id a) :=
    sortDescBy_pairwise id l
  have h2 : (sortDescBy id l).Nodup := sortDescBy_id_nodup l h
  exact (h1.and h2).imp (fun hab => lt_of_le_of_ne hab.1 (Ne.symm hab.2))

/-- C1: for every source height `H > 0` and requested list `R`, the plan's
targets start with `H`; the remaining targets are strictly decreasing,
pairwise distinct and all `< H`; skipped contains exactly the elements of `R`
that are `> H`, in descending order; targets and skipped are disjoint. -/
theorem plan_targets_and_skipped (H : Int) (R : List Int) (hH : 0 < H) :
    ((plan H R).1).head? = some H ∧
    ((plan H R).1.tail).Pairwise (· > ·) ∧
    ((plan H R).1.tail).Nodup ∧
    (∀ x ∈ (plan H R).1.tail, x < H) ∧
    (∀ x : Int, x ∈ (plan H R).2 ↔ x ∈ R ∧ H < x) ∧
    ((plan H R).2).Pairwise (· > ·) ∧
    (∀ x ∈ (plan H R).1, x ∉ (plan H R).2) := by
  have hsorted : (sortDescBy id R.dedup).Pairwise (· > ·) :=
    sortDescBy_id_strict R.dedup R.nodup_dedup
  have hnodup : (sortDescBy id R.dedup).Nodup :=
    sortDescBy_id_nodup R.dedup R.nodup_dedup
  have hmem : ∀ x : Int, x ∈ sortDescBy id R.dedup ↔ x ∈ R := by
    intro x
    rw [mem_sortDescBy, List.mem_dedup]
  refine ⟨rfl, ?_, ?_, ?_, ?_, ?_, ?_⟩
  · exact ((hsorted.filter _).filter _)
  · exact ((hnodup.filter _).filter _)
  · intro x hx
    simp only [plan, List.tail_cons, List.mem_filter, decide_eq_true_eq] at hx
    exact hx.2
  · intro x
    simp only [plan, List.mem_filter, decide_eq_true_eq, hmem]
  · exact hsorted.filter _
  · intro x hx hx'
    simp only [plan, List.mem_filter, decide_eq_true_eq] at hx'
    simp only [plan, List.mem_cons, List.mem_filter, decide_eq_true_eq] at hx
    rcases hx with rfl | hx
    · exact absurd hx'.2 (lt_irrefl x)
    · exact absurd hx'.2 (not_lt_of_gt hx.2)

/-- Witness: concrete run of C1 with source height 1080 and requests
{2160, 720, 1080, 720, 480}. -/
theorem plan_targets_and_skipped_witness :
    (0 : Int) < 1080 ∧
    ((plan 1080 [2160, 720, 1080, 720, 480]).1).head? = some 1080 ∧
    ((plan 1080 [2160, 720, 1080, 720, 480]).1.tail).Pairwise (· > ·) ∧
    ((plan 1080 [2160, 720, 1080, 720, 480]).1.tail).Nodup ∧
    (∀ x ∈ (plan 1080 [2160, 720, 1080, 720, 480]).1.tail, x < 1080) ∧
    (∀ x : Int, x ∈ (plan 1080 [2160, 720, 1080, 720, 480]).2 ↔
      x ∈ [2160, 720, 1080, 720, 480] ∧ 1080 < x) ∧
    ((plan 1080 [2160, 720, 1080, 720, 480]).2).Pairwise (· > ·) ∧
    (∀ x ∈ (plan 1080 [2160, 720, 1080, 720, 480]).1,
      x ∉ (plan 1080 [2160, 720, 1080, 720, 480]).2) :=
  ⟨by norm_num, plan_targets_and_skipped 1080 [2160, 720, 1080, 720, 480] (by norm_num)⟩

/-! ## Quality parameter (src/app.py lines 106-117, `crf_for_height`) -/

def crf_for_height (height : Int) : Int :=
  if height ≥ 2160 then 20
  else if height ≥ 1440 then 21
  else if height ≥ 1080 then 22
  else if height ≥ 720 then 23
  else if height ≥ 480 then 24
  else 25

/-- C6: the quality-parameter function returns exactly 20 for height ≥ 2160,
21 for ≥ 1440, 22 for ≥ 1080, 23 for ≥ 720, 24 for ≥ 480 and 25 otherwise,
first matching threshold from the top; and for `h2 ≤ h1` the parameter of
`h1` is at most the parameter of `h2`. -/
theorem crf_for_height_table_and_monotone (h1 h2 : Int) (hle : h2 ≤ h1) :
    crf_for_height h1 ≤ crf_for_height h2 ∧
    (2160 ≤ h2 → crf_for_height h2 = 20) ∧
    (1440 ≤ h2 ∧ h2 < 2160 → crf_for_height h2 = 21) ∧
    (1080 ≤ h2 ∧ h2 < 1440 → crf_for_height h2 = 22) ∧
    (720 ≤ h2 ∧ h2 < 1080 → crf_for_height h2 = 23) ∧
    (480 ≤ h2 ∧ h2 < 720 → crf_for_height h2 = 24) ∧
    (h2 < 480 → crf_for_height h2 = 25) := by
  unfold crf_for_height
  refine ⟨?_, ?_, ?_, ?_, ?_, ?_, ?_⟩ <;> · intros; split_ifs <;> omega

/-- Witness for C6 at `h1 = 1440`, `h2 = 600`. -/
theorem crf_for_height_table_and_monotone_witness :
    (600 : Int) ≤ 1440 ∧
    (crf_for_height 1440 ≤ crf_for_height 600 ∧
     (2160 ≤ (600 : Int) → crf_for_height 600 = 20) ∧
     (1440 ≤ (600 : Int) ∧ (600 : Int) < 2160 → crf_for_height 600 = 21) ∧
     (1080 ≤ (600 : Int) ∧ (600 : Int) < 1440 → crf_for_height 600 = 22) ∧
     (720 ≤ (600 : Int) ∧ (600 : Int) < 1080 → crf_for_height 600 = 23) ∧
     (480 ≤ (600 : Int) ∧ (600 : Int) < 720 → crf_for_height 600 = 24) ∧
     ((600 : Int) < 480 → crf_for_height 600 = 25)) :=
  ⟨by norm_num, crf_for_height_table_and_monotone 1440 600 (by norm_num)⟩

/-! ## Upload resolution validation (src/app.py lines 443-454)

Each submitted form value is parsed with `int(...)`; a value whose parse
raises is skipped (`continue`), and a parsed value is kept only when it is a
member of `RESOLUTION_PRESETS`.  The request is rejected only when the kept
list is empty.  A form value is modelled as `Option Int`: `none` stands for a
value on which Python's `int(...)` raises. -/

def RESOLUTION_PRESETS : List Int := [2160, 1440, 1080, 720, 480, 360]

/-- One loop iteration of the resolution-collecting loop in `upload`. -/
def resolution_step (acc : List Int) (v : Option Int) : List Int :=
  match v with
  | none => acc
  | some r => if r ∈ RESOLUTION_PRESETS then acc ++ [r] else acc

def parse_requested_resolutions (values : List (Option Int)) : List Int :=
  values.foldl resolution_step []

def validate_resolutions (values : List (Option Int)) : Except String (List Int) :=
  if (parse_requested_resolutions values).isEmpty
  then Except.error "Select at least one target resolution."
  else Except.ok (parse_requested_resolutions values)

theorem foldl_resolution_step_append (values : List (Option Int)) (acc : List Int) :
    values.foldl resolution_step acc = acc ++ values.foldl resolution_step [] := by
  induction values generalizing acc with
  | nil => simp
  | cons v vs ih =>
    rw [List.foldl_cons, List.foldl_cons, ih (resolution_step acc v),
      ih (resolution_step [] v)]
    cases v with
    | none => simp [resolution_step]
    | some r =>
      by_cases hr : r ∈ RESOLUTION_PRESETS <;>
        simp [resolution_step, hr, List.append_assoc]

theorem mem_parse_requested_resolutions (values : List (Option Int)) (r : Int) :
    r ∈ parse_requested_resolutions values ↔
      some r ∈ values ∧ r ∈ RESOLUTION_PRESETS := by
  induction values with
  | nil => simp [parse_requested_resolutions]
  | cons v vs ih =>
    unfold parse_requested_resolutions at ih ⊢
    rw [List.foldl_cons, foldl_resolution_step_append]
    cases v with
    | none => simp [resolution_step, ih]
    | some s =>
      by_cases hs : s ∈ RESOLUTION_PRESETS
      · simp only [resolution_step, if_pos hs, List.nil_append, List.singleton_append,
          List.mem_cons, Option.some_inj]
        constructor
        · rintro (rfl | h)
          · exact ⟨Or.inl rfl, hs⟩
          · rcases ih.mp h with ⟨h1, h2⟩
            exact ⟨Or.inr h1, h2⟩
        · rintro ⟨rfl | h1, h2⟩
          · exact Or.inl rfl
          · exact Or.inr (ih.mpr ⟨h1, h2⟩)
      · simp only [resolution_step, if_neg hs, List.nil_append, List.mem_cons,
          Option.some_inj]
        rw [ih]
        constructor
        · rintro ⟨h1, h2⟩
          exact ⟨Or.inr h1, h2⟩
        · rintro ⟨rfl | h1, h2⟩
          · exact absurd h2 hs
          · exact ⟨h1, h2⟩

/-- C10: submitted resolution values that do not parse as integers or are not
preset members are silently discarded; the request is rejected for
resolutions exactly when no valid value remains, and otherwise proceeds with
the kept values. -/
theorem upload_resolution_filtering (values : List (Option Int)) :
    (∀ r : Int, r ∈ parse_requested_resolutions values ↔
      some r ∈ values ∧ r ∈ RESOLUTION_PRESETS) ∧
    ((∃ rs : List Int, validate_resolutions values = Except.ok rs) ↔
      ∃ r : Int, some r ∈ values ∧ r ∈ RESOLUTION_PRESETS) ∧
    (∀ rs : List Int, validate_resolutions values = Except.ok rs →
      rs = parse_requested_resolutions values) := by
  refine ⟨mem_parse_requested_resolutions values, ?_, ?_⟩
  · unfold validate_resolutions
    split
    · rename_i hempty
      rw [List.isEmpty_iff] at hempty
      constructor
      · rintro ⟨rs, hrs⟩
        exact absurd hrs (by simp)
      · rintro ⟨r, h1, h2⟩
        have hr : r ∈ parse_requested_resolutions values :=
          (mem_parse_requested_resolutions values r).mpr ⟨h1, h2⟩
        rw [hempty] at hr
        exact absurd hr (List.not_mem_nil r)
    · rename_i hempty
      rw [List.isEmpty_iff] at hempty
      constructor
      · intro _
        rcases List.exists_mem_of_ne_nil _ hempty with ⟨r, hr⟩
        exact ⟨r, (mem_parse_requested_resolutions values r).mp hr⟩
      · intro _
        exact ⟨parse_requested_resolutions values, rfl⟩
  · intro rs h
    unfold validate_resolutions at h
    split at h
    · exact absurd h (by simp)
    · exact (Except.ok.inj h).symm

/-! ## Segmenter enumeration (src/app.py lines 200-211, `segment_video`)

After the external split, the code runs
`for index, item in enumerate(sorted(destination_dir.glob("*.mp4")), start=1)`
and records `{index, path, size_bytes, duration, label}` per chunk file.  The
produced chunk files are modelled as a list of filenames together with a size
map; Python's `sorted` over paths of one directory is the stable ascending
lexicographic sort of the filenames. -/

structure SegmentEntry where
  index : Nat
  path : String
  size_bytes : Int
  duration : Int
  label : String
deriving DecidableEq

/-- Python's `enumerate(l, start=i)`. -/
def enumerateFrom {α : Type} (i : Nat) : List α → List (Nat × α)
  | [] => []
  | x :: xs => (i, x) :: enumerateFrom (i + 1) xs

def segment_entries_of_files (files : List String) (size : String → Int)
    (segment_duration : Int) : List SegmentEntry :=
  (enumerateFrom 1 (sortAscBy id files)).map
    (fun p => ⟨p.1, p.2, size p.2, segment_duration, "Segment " ++ toString p.1⟩)

theorem enumerateFrom_map_fst {α : Type} (i : Nat) (l : List α) :
    (enumerateFrom i l).map Prod.fst = List.range' i l.length := by
  induction l generalizing i with
  | nil => rfl
  | cons x xs ih => simp [enumerateFrom, List.range', ih]

theorem enumerateFrom_map_snd {α : Type} (i : Nat) (l : List α) :
    (enumerateFrom i l).map Prod.snd = l := by
  induction l generalizing i with
  | nil => rfl
  | cons x xs ih => simp [enumerateFrom, ih]

theorem enumerateFrom_length {α : Type} (i : Nat) (l : List α) :
    (enumerateFrom i l).length = l.length := by
  induction l generalizing i with
  | nil => rfl
  | cons x xs ih => simp [enumerateFrom, ih]

/-- C7: the segment list has indices exactly `1..N` with no gaps, where `N` is
the number of chunk files, and the index order coincides with the ascending
lexicographic order of the chunk filenames. -/
theorem segment_indices_contiguous_and_lex (files : List String)
    (size : String → Int) (segment_duration : Int) :
    (segment_entries_of_files files size segment_duration).map (·.index) =
      List.range' 1 files.length ∧
    (segment_entries_of_files files size segment_duration).map (·.path) =
      sortAscBy id files ∧
    (sortAscBy id files).Pairwise (· ≤ ·) ∧
    List.Perm (sortAscBy id files) files ∧
    (segment_entries_of_files files size segment_duration).length = files.length := by
  have hlen : (sortAscBy id files).length = files.length :=
    (sortAscBy_perm id files).length_eq
  refine ⟨?_, ?_, ?_, sortAscBy_perm id files, ?_⟩
  · rw [segment_entries_of_files, List.map_map]
    have : ((fun e : SegmentEntry => e.index) ∘
        (fun p : Nat × String =>
          (⟨p.1, p.2, size p.2, segment_duration, "Segment " ++ toString p.1⟩ :
            SegmentEntry))) = Prod.fst := rfl
    rw [this, enumerateFrom_map_fst, hlen]
  · rw [segment_entries_of_files, List.map_map]
    have : ((fun e : SegmentEntry => e.path) ∘
        (fun p : Nat × String =>
          (⟨p.1, p.2, size p.2, segment_duration, "Segment " ++ toString p.1⟩ :
            SegmentEntry))) = Prod.snd := rfl
    rw [this, enumerateFrom_map_snd]
  · exact sortAscBy_pairwise id files
  · rw [segment_entries_of_files, List.length_map, enumerateFrom_length, hlen]

/-! ## Bitrate computation (src/app.py lines 515-531 in `upload`)

`variant_duration = variant_info.get("duration") or segment_duration * max(len(variant_segments), 1)`
`bitrate_kbps = 0.0`; `if variant_duration: bitrate_kbps = (variant_size_bytes * 8) / 1000 / variant_duration`
`"bitrate_kbps": round(bitrate_kbps, 2)`.

Floats are modelled as rationals; Python's `round(x, 2)` (round half to even)
becomes `round2`.  The segment duration reaching this code has been clamped
by `segment_duration = max(5, min(segment_duration, 600))` (line 462). -/

def roundHalfEven (q : ℚ) : ℤ :=
  if q - ⌊q⌋ < 1 / 2 then ⌊q⌋
  else if 1 / 2 < q - ⌊q⌋ then ⌊q⌋ + 1
  else if ⌊q⌋ % 2 = 0 then ⌊q⌋ else ⌊q⌋ + 1

def round2 (q : ℚ) : ℚ := (roundHalfEven (q * 100) : ℚ) / 100

def clamp_segment_duration (raw : Int) : Int := max 5 (min raw 600)

/-- `variant_duration = variant_info.get("duration") or segment_duration * max(len(variant_segments), 1)`:
a Python float is falsy exactly when it is zero. -/
def variant_duration_py (measured_duration : ℚ) (segment_duration : Int)
    (segment_count : Nat) : ℚ :=
  if measured_duration = 0
  then (segment_duration : ℚ) * ((max segment_count 1 : ℕ) : ℚ)
  else measured_duration

def variant_bitrate_kbps (size_bytes : Int) (measured_duration : ℚ)
    (segment_duration : Int) (segment_count : Nat) : ℚ :=
  round2
    (if variant_duration_py measured_duration segment_duration segment_count = 0
     then 0
     else ((size_bytes : ℚ) * 8) / 1000 /
       variant_duration_py measured_duration segment_duration segment_count)

/-- The effective duration exactly as the spec phrases it: the measured output
duration when it is `> 0`, otherwise `segmentDurationSeconds * max(segmentCount, 1)`. -/
def spec_effective_duration (measured : ℚ) (segment_duration : Int)
    (segment_count : Nat) : ℚ :=
  if 0 < measured then measured
  else (segment_duration : ℚ) * ((max segment_count 1 : ℕ) : ℚ)

def spec_bitrate_kbps (size_bytes : Int) (measured : ℚ) (segment_duration : Int)
    (segment_count : Nat) : ℚ :=
  round2 ((size_bytes : ℚ) * 8 / 1000 /
    spec_effective_duration measured segment_duration segment_count)

/-- C5: with the clamped segment duration, the recorded bitrate equals
`round(sizeBytes * 8 / 1000 / effectiveDuration, 2)` with the effective
duration chosen as the spec states, and the divisor is never zero. -/
theorem bitrate_matches_spec_and_divisor_nonzero (size_bytes : Int)
    (measured : ℚ) (raw_segment_duration : Int) (segment_count : Nat)
    (hm : 0 ≤ measured) :
    variant_bitrate_kbps size_bytes measured
        (clamp_segment_duration raw_segment_duration) segment_count =
      spec_bitrate_kbps size_bytes measured
        (clamp_segment_duration raw_segment_duration) segment_count ∧
    spec_effective_duration measured
        (clamp_segment_duration raw_segment_duration) segment_count ≠ 0 := by
  have hsd : (5 : Int) ≤ clamp_segment_duration raw_segment_duration :=
    le_max_left 5 (min raw_segment_duration 600)
  have hsdq : (0 : ℚ) < ((clamp_segment_duration raw_segment_duration : Int) : ℚ) := by
    have h0 : (0 : Int) < clamp_segment_duration raw_segment_duration := by omega
    exact_mod_cast h0
  have hcnt : (0 : ℚ) < ((max segment_count 1 : ℕ) : ℚ) := by
    have h0 : (0 : ℕ) < max segment_count 1 := by omega
    exact_mod_cast h0
  have hfall : (0 : ℚ) <
      ((clamp_segment_duration raw_segment_duration : Int) : ℚ) *
        ((max segment_count 1 : ℕ) : ℚ) := mul_pos hsdq hcnt
  rcases eq_or_lt_of_le hm with hz | hpos
  · have hnotpos : ¬ (0 : ℚ) < measured := by
      rw [← hz]
      exact lt_irrefl 0
    have hvd : variant_duration_py measured
        (clamp_segment_duration raw_segment_duration) segment_count =
        ((clamp_segment_duration raw_segment_duration : Int) : ℚ) *
          ((max segment_count 1 : ℕ) : ℚ) := by
      unfold variant_duration_py
      rw [if_pos hz.symm]
    have hse : spec_effective_duration measured
        (clamp_segment_duration raw_segment_duration) segment_count =
        ((clamp_segment_duration raw_segment_duration : Int) : ℚ) *
          ((max segment_count 1 : ℕ) : ℚ) := by
      unfold spec_effective_duration
      rw [if_neg hnotpos]
    refine ⟨?_, ?_⟩
    · unfold variant_bitrate_kbps spec_bitrate_kbps
      rw [hvd, hse, if_neg (ne_of_gt hfall)]
    · rw [hse]
      exact ne_of_gt hfall
  · have hne : measured ≠ 0 := ne_of_gt hpos
    have hvd : variant_duration_py measured
        (clamp_segment_duration raw_segment_duration) segment_count = measured := by
      unfold variant_duration_py
      rw [if_neg hne]
    have hse : spec_effective_duration measured
        (clamp_segment_duration raw_segment_duration) segment_count = measured := by
      unfold spec_effective_duration
      rw [if_pos hpos]
    refine ⟨?_, ?_⟩
    · unfold variant_bitrate_kbps spec_bitrate_kbps
      rw [hvd, hse, if_neg hne]
    · rw [hse]
      exact hne

/-- Witness for C5: measured duration 0, raw segment duration 30, zero
segments — the divisor is still nonzero and the code value matches the spec
formula. -/
theorem bitrate_matches_spec_witness :
    (0 : ℚ) ≤ 0 ∧
    (variant_bitrate_kbps 9000 0 (clamp_segment_duration 30) 0 =
      spec_bitrate_kbps 9000 0 (clamp_segment_duration 30) 0 ∧
     spec_effective_duration 0 (clamp_segment_duration 30) 0 ≠ 0) :=
  ⟨le_refl 0, bitrate_matches_spec_and_divisor_nonzero 9000 0 30 0 (le_refl 0)⟩

/-! ## PlaylistPresenter: `summarise_manifest` (src/app.py lines 282-341)

The manifest is a JSON document written and read by the app; it is modelled
as a typed record in which every dict key that the code reads through
`.get(...)` is an `Option` field (an absent key is `none`).  The loop body
builds an enriched view per variant; a variant is taken as master when its
`is_master` value is truthy and no master has been selected yet, otherwise it
is appended to `other_variants`.  If no variant was flagged and the list is
non-empty, a master view is rebuilt from the first variant.  `other_variants`
is then sorted stably by `item.get("height") or 0`, descending. -/

structure MVariant where
  label : Option String
  height : Option Int
  width : Option Int
  duration : Option ℚ
  file : Option String
  segments : Option (List SegmentEntry)
  is_master : Option Bool
  bitrate_kbps : Option ℚ
  size_bytes : Option Int
deriving DecidableEq

structure MSource where
  filename : Option String
  height : Option Int
  width : Option Int
  duration : Option ℚ
deriving DecidableEq

structure ManifestDoc where
  playlist_id : Option String
  created_at : Option String
  segment_duration : Option Int
  skipped_resolutions : Option (List Int)
  source : Option MSource
  variants : Option (List MVariant)
deriving DecidableEq

structure VariantView where
  label : String
  height : Option Int
  width : Option Int
  duration : Option ℚ
  file : Option String
  segments : List SegmentEntry
  segment_count : Nat
  is_master : Bool
  bitrate_kbps : Option ℚ
deriving DecidableEq

structure MasterView extends VariantView where
  filename : Option String
deriving DecidableEq

structure PlaylistSummary where
  playlist_id : Option String
  created_at : Option String
  segment_duration : Option Int
  skipped_resolutions : List Int
  master : Option MasterView
  variants : List VariantView
  source : MSource
deriving DecidableEq

/-- The enriched per-variant view built at the top of the loop. -/
def enrich (v : MVariant) : VariantView :=
  { label := v.label.getD ""
    height := v.height
    width := v.width
    duration := v.duration
    file := v.file
    segments := v.segments.getD []
    segment_count := (v.segments.getD []).length
    is_master := v.is_master.getD false
    bitrate_kbps := v.bitrate_kbps }

/-- The master view rebuilt from `variants_data[0]` when no variant was
flagged (`label` defaults to "Master", `is_master` is forced to true). -/
def fallback_master_view (v : MVariant) : VariantView :=
  { label := v.label.getD "Master"
    height := v.height
    width := v.width
    duration := v.duration
    file := v.file
    segments := v.segments.getD []
    segment_count := (v.segments.getD []).length
    is_master := true
    bitrate_kbps := v.bitrate_kbps }

/-- Sort key `item.get("height") or 0`. -/
def heightKey (v : VariantView) : Int := v.height.getD 0

def summariseLoop : List MVariant → Option VariantView → List VariantView →
    Option VariantView × List VariantView
  | [], master, acc => (master, acc)
  | v :: vs, master, acc =>
    if (enrich v).is_master && master.isNone
    then summariseLoop vs (some (enrich v)) acc
    else summariseLoop vs master (acc ++ [enrich v])

def manifest_source (m : ManifestDoc) : MSource :=
  m.source.getD ⟨none, none, none, none⟩

/-- The final master enrichment:
`{**master_variant, "filename": source.get("filename", master_variant.get("file")), ...}`. -/
def attach_source_filename (source : MSource) (mv : VariantView) : MasterView :=
  { toVariantView := mv
    filename :=
      match source.filename with
      | some s => some s
      | none => mv.file }

def summarise_manifest (m : ManifestDoc) : PlaylistSummary :=
  { playlist_id := m.playlist_id
    created_at := m.created_at
    segment_duration := m.segment_duration
    skipped_resolutions := m.skipped_resolutions.getD []
    master :=
      (match (summariseLoop (m.variants.getD []) none []).1, m.variants.getD [] with
        | none, fallback :: _ => some (fallback_master_view fallback)
        | mv, _ => mv).map (attach_source_filename (manifest_source m))
    variants := sortDescBy heightKey (summariseLoop (m.variants.getD []) none []).2
    source := manifest_source m }

theorem summariseLoop_some (vs : List MVariant) (mv : VariantView)
    (acc : List VariantView) :
    summariseLoop vs (some mv) acc = (some mv, acc ++ vs.map enrich) := by
  induction vs generalizing acc with
  | nil => simp [summariseLoop]
  | cons v vs ih => simp [summariseLoop, ih]

theorem summariseLoop_none (vs : List MVariant) (acc : List VariantView)
    (h : ∀ v ∈ vs, (enrich v).is_master = false) :
    summariseLoop vs none acc = (none, acc ++ vs.map enrich) := by
  induction vs generalizing acc with
  | nil => simp [summariseLoop]
  | cons v vs ih =>
    have hv := h v (List.mem_cons_self v vs)
    simp [summariseLoop, hv, ih _ (fun w hw => h w (List.mem_cons_of_mem v hw))]

theorem summariseLoop_first_flagged (l1 : List MVariant) (f : MVariant)
    (l2 : List MVariant) (acc : List VariantView)
    (h1 : ∀ v ∈ l1, (enrich v).is_master = false)
    (hf : (enrich f).is_master = true) :
    summariseLoop (l1 ++ f :: l2) none acc =
      (some (enrich f), acc ++ (l1 ++ l2).map enrich) := by
  induction l1 generalizing acc with
  | nil => simp [summariseLoop, hf, summariseLoop_some]
  | cons v vs ih =>
    have hv := h1 v (List.mem_cons_self v vs)
    have ih' := ih (acc ++ [enrich v]) (fun w hw => h1 w (List.mem_cons_of_mem v hw))
    simp only [List.cons_append, summariseLoop, hv, Bool.false_and,
      if_neg Bool.false_ne_true, List.append_eq]
    rw [ih']
    simp

/-- C2 as stated is false: in a manifest where no variant is flagged, the
first variant is selected and treated as master, yet its view also remains in
the returned non-master variants list (the loop already appended it before
the fallback promotion). -/
def variant720 : MVariant :=
  { label := some "720p", height := some 720, width := some 1280,
    duration := some 60, file := some "v/a.mp4", segments := some [],
    is_master := none, bitrate_kbps := some 900, size_bytes := some 1000 }

def variant480 : MVariant :=
  { label := some "480p", height := some 480, width := some 854,
    duration := some 60, file := some "v/b.mp4", segments := some [],
    is_master := none, bitrate_kbps := some 500, size_bytes := some 600 }

def manifestNoFlag : ManifestDoc :=
  { playlist_id := some "p", created_at := some "t", segment_duration := some 30,
    skipped_resolutions := some [],
    source := some ⟨some "src.mp4", some 720, some 1280, some 60⟩,
    variants := some [variant720, variant480] }

/-- Counterexample to C2: the fallback master is derived from the first
variant, but the non-master variants list still contains that same first
variant (it is not excluded): the list has both views, led by the master's. -/
theorem summarise_fallback_master_not_excluded :
    (summarise_manifest manifestNoFlag).master.map (fun mv => mv.file) =
      some (some "v/a.mp4") ∧
    (summarise_manifest manifestNoFlag).variants.map (fun v => v.file) =
      [some "v/a.mp4", some "v/b.mp4"] ∧
    (summarise_manifest manifestNoFlag).variants.length = 2 := by decide

/-- C2 amended: if exactly one variant is flagged `is_master` it is selected
as master and the non-master list holds exactly the views of the other
variants; if none is flagged and the list is non-empty, the first variant is
selected and treated as master but is NOT excluded — the non-master list
holds the views of ALL variants, the promoted first one included; in both
cases the non-master list is sorted stably by descending height with a
missing height sorting as 0. -/
theorem summarise_master_selection_amended (m : ManifestDoc) :
    (∀ l1 f l2, m.variants.getD [] = l1 ++ f :: l2 →
      (∀ v ∈ l1, (enrich v).is_master = false) →
      (∀ v ∈ l2, (enrich v).is_master = false) →
      (enrich f).is_master = true →
      (summarise_manifest m).master =
        some (attach_source_filename (manifest_source m) (enrich f)) ∧
      (summarise_manifest m).variants = sortDescBy heightKey ((l1 ++ l2).map enrich)) ∧
    (∀ v vs, m.variants.getD [] = v :: vs →
      (∀ w ∈ v :: vs, (enrich w).is_master = false) →
      (summarise_manifest m).master =
        some (attach_source_filename (manifest_source m) (fallback_master_view v)) ∧
      (summarise_manifest m).variants =
        sortDescBy heightKey ((v :: vs).map enrich)) ∧
    (summarise_manifest m).variants.Pairwise (fun a b => heightKey b ≤ heightKey a) := by
  refine ⟨?_, ?_, ?_⟩
  · intro l1 f l2 hv h1 h2 hf
    have hloop := summariseLoop_first_flagged l1 f l2 [] h1 hf
    constructor
    · simp [summarise_manifest, hv, hloop]
    · simp [summarise_manifest, hv, hloop]
  · intro v vs hv h
    have hloop := summariseLoop_none (v :: vs) [] h
    constructor
    · simp [summarise_manifest, hv, hloop]
    · simp [summarise_manifest, hv, hloop]
  · exact sortDescBy_pairwise heightKey _

/-- C9: when several variants are flagged `is_master`, the first flagged one
(in storage order) is selected as master, and every later flagged variant is
kept in the non-master variants list — neither promoted nor dropped. -/
theorem summarise_first_of_multiple_masters (m : ManifestDoc)
    (l1 : List MVariant) (f : MVariant) (l2 : List MVariant)
    (hv : m.variants.getD [] = l1 ++ f :: l2)
    (h1 : ∀ v ∈ l1, (enrich v).is_master = false)
    (hf : (enrich f).is_master = true) :
    (summarise_manifest m).master =
      some (attach_source_filename (manifest_source m) (enrich f)) ∧
    ∀ v ∈ l2, (enrich v).is_master = true →
      enrich v ∈ (summarise_manifest m).variants := by
  have hloop := summariseLoop_first_flagged l1 f l2 [] h1 hf
  constructor
  · simp [summarise_manifest, hv, hloop]
  · intro v hvl2 _
    simp only [summarise_manifest, hv, hloop, List.nil_append]
    rw [mem_sortDescBy]
    exact List.mem_map_of_mem enrich (List.mem_append_right l1 hvl2)

def variantMasterA : MVariant :=
  { label := some "1080p", height := some 1080, width := some 1920,
    duration := some 60, file := some "v/m1.mp4", segments := some [],
    is_master := some true, bitrate_kbps := some 1500, size_bytes := some 2000 }

def variantMasterB : MVariant :=
  { label := some "360p", height := some 360, width := some 640,
    duration := some 60, file := some "v/m2.mp4", segments := some [],
    is_master := some true, bitrate_kbps := some 300, size_bytes := some 400 }

def manifestTwoFlags : ManifestDoc :=
  { playlist_id := some "q", created_at := some "t", segment_duration := some 30,
    skipped_resolutions := some [],
    source := some ⟨some "src.mp4", some 1080, some 1920, some 60⟩,
    variants := some [variantMasterA, variant480, variantMasterB] }

/-- Witness for C9 on a manifest with two flagged variants. -/
theorem summarise_first_of_multiple_masters_witness :
    (summarise_manifest manifestTwoFlags).master =
      some (attach_source_filename (manifest_source manifestTwoFlags)
        (enrich variantMasterA)) ∧
    ∀ v ∈ [variant480, variantMasterB], (enrich v).is_master = true →
      enrich v ∈ (summarise_manifest manifestTwoFlags).variants :=
  summarise_first_of_multiple_masters manifestTwoFlags [] variantMasterA
    [variant480, variantMasterB] (by decide) (by decide) (by decide)

/-! ## Playlist-directory collision handling (src/app.py lines 476-479, 564-571)

The filesystem is modelled as the finite set of existing paths (directories
and files alike).  `Path.mkdir(parents=True, exist_ok=False)` creates missing
parents without error and raises `FileExistsError` when the final path
already exists; the raising call leaves the filesystem unchanged.  On any
exception, `upload` runs `cleanup_playlist(playlist_dir)`, i.e.
`if path.exists(): shutil.rmtree(path)` — recursive deletion of the playlist
directory. -/

structure FS where
  paths : List String
deriving DecidableEq

def FS.pathExists (fs : FS) (p : String) : Bool := fs.paths.contains p

/-- `Path.mkdir(parents=True, exist_ok=False)` with one relevant parent; the
error value carries the unchanged filesystem. -/
def mkdir_parents_exclusive (fs : FS) (parent : String) (p : String) :
    Except FS FS :=
  if fs.pathExists p then Except.error fs
  else Except.ok ⟨p :: (if fs.pathExists parent then fs.paths else parent :: fs.paths)⟩

/-- String prefix test over the underlying character lists. -/
def strIsPrefix (p q : String) : Bool := p.data.isPrefixOf q.data

/-- `shutil.rmtree(p)`: removes `p` and everything below it. -/
def rmtree (fs : FS) (p : String) : FS :=
  ⟨fs.paths.filter (fun q => !(q == p || strIsPrefix (p ++ "/") q))⟩

/-- `cleanup_playlist` (src/app.py lines 220-222). -/
def cleanup_playlist (fs : FS) (p : String) : FS :=
  if fs.pathExists p then rmtree fs p else fs

/-- The try/except skeleton of `upload` around the playlist directories: the
three exclusive `mkdir` calls, then the rest of the pipeline (transcoding,
segmentation, manifest write) abstracted as `process`; any raised error is
answered by `cleanup_playlist(playlist_dir)`.  Returns the final filesystem
and whether the run succeeded. -/
def upload_attempt (fs : FS) (playlist_dir : String)
    (process : FS → Except FS FS) : FS × Bool :=
  match (do
    let fs1 ← mkdir_parents_exclusive fs playlist_dir (playlist_dir ++ "/source")
    let fs2 ← mkdir_parents_exclusive fs1 playlist_dir (playlist_dir ++ "/variants")
    let fs3 ← mkdir_parents_exclusive fs2 playlist_dir (playlist_dir ++ "/segments")
    process fs3 : Except FS FS) with
  | Except.ok fs' => (fs', true)
  | Except.error fse => (cleanup_playlist fse playlist_dir, false)

/-- The on-disk state left by a first, successful run for playlist id
`vid-20250101120000`. -/
def firstRunFs : FS :=
  ⟨["media/vid-20250101120000",
    "media/vid-20250101120000/source",
    "media/vid-20250101120000/source/vid.mp4",
    "media/vid-20250101120000/variants",
    "media/vid-20250101120000/variants/1080p",
    "media/vid-20250101120000/variants/1080p/vid_1080p.mp4",
    "media/vid-20250101120000/segments",
    "media/vid-20250101120000/segments/1080p",
    "media/vid-20250101120000/manifest.json"]⟩

/-- C3 evaluated at the failing input: a second run that generates the same
playlist id does fail (the exclusive `source` mkdir raises), but its
exception handler runs `cleanup_playlist` on the shared playlist directory
and thereby deletes the first run's entire directory, manifest included —
the first run's state does not remain intact. -/
theorem second_colliding_run_deletes_first_runs_playlist :
    firstRunFs.pathExists "media/vid-20250101120000/manifest.json" = true ∧
    (upload_attempt firstRunFs "media/vid-20250101120000" Except.ok).2 = false ∧
    (upload_attempt firstRunFs "media/vid-20250101120000" Except.ok).1.pathExists
      "media/vid-20250101120000/manifest.json" = false ∧
    (upload_attempt firstRunFs "media/vid-20250101120000" Except.ok).1.pathExists
      "media/vid-20250101120000" = false := by decide

/-! ## Manifest persistence (src/app.py lines 553-554)

`with manifest_path.open("w", encoding="utf-8") as handle: json.dump(manifest_payload, handle, indent=2)`
— the manifest is written by truncating the manifest path in place and then
writing the serialized document into it.  The write discipline is modelled
as the trace of filesystem operations the code performs. -/

inductive FsWriteOp where
  | openTruncate (path : String)
  | write (path : String) (data : String)
  | rename (src : String) (dst : String)
deriving DecidableEq

/-- The operation trace of saving the manifest, as the code performs it. -/
def save_manifest_ops (manifest_path : String) (payload : String) :
    List FsWriteOp :=
  [FsWriteOp.openTruncate manifest_path, FsWriteOp.write manifest_path payload]

/-- A trace follows write-to-temp-then-rename for `path` when some rename
lands on `path` and `path` itself is never opened for truncation. -/
def uses_temp_then_rename (ops : List FsWriteOp) (path : String) : Bool :=
  (ops.any (fun op =>
    match op with
    | FsWriteOp.rename _ dst => dst == path
    | _ => false)) &&
  (ops.all (fun op =>
    match op with
    | FsWriteOp.openTruncate p => !(p == path)
    | _ => true))

def apply_write_op (path : String) (content : Option String) (op : FsWriteOp) :
    Option String :=
  match op with
  | FsWriteOp.openTruncate p => if p == path then some "" else content
  | FsWriteOp.write p data =>
      if p == path then some ((content.getD "") ++ data) else content
  | FsWriteOp.rename _ _ => content

/-- Contents of `path` a reader can observe before, between and after the
operations of a trace (`none` = the file does not exist). -/
def observed_contents (prev : Option String) (path : String) :
    List FsWriteOp → List (Option String)
  | [] => [prev]
  | op :: ops => prev :: observed_contents (apply_write_op path prev op) path ops

/-- Counterexample to C4: saving a manifest is not write-to-temp-then-rename;
it truncates the manifest path in place, and a reader between the truncation
and the write observes an empty file — neither "no manifest", nor the
complete previous manifest, nor the complete new one. -/
theorem save_manifest_not_temp_then_rename :
    uses_temp_then_rename (save_manifest_ops "m/manifest.json" "NEWDOC")
      "m/manifest.json" = false ∧
    observed_contents (some "OLDDOC") "m/manifest.json"
      (save_manifest_ops "m/manifest.json" "NEWDOC") =
      [some "OLDDOC", some "", some "NEWDOC"] ∧
    (some "" ≠ (none : Option String) ∧ some "" ≠ some "OLDDOC" ∧
      some "" ≠ some "NEWDOC") := by decide

/-- C4 amended: saving a manifest is a single in-place truncate-then-write of
the manifest path (no temp file, no rename); consequently a reader during
the save can observe a truncated (partial) manifest, and only before the
truncation does it see the previous contents, only after the write the new
ones. -/
theorem save_manifest_is_in_place_truncate_write (manifest_path : String)
    (payload : String) (prev : Option String) :
    save_manifest_ops manifest_path payload =
      [FsWriteOp.openTruncate manifest_path,
       FsWriteOp.write manifest_path payload] ∧
    uses_temp_then_rename (save_manifest_ops manifest_path payload)
      manifest_path = false ∧
    observed_contents prev manifest_path
      (save_manifest_ops manifest_path payload) =
      [prev, some "", some payload] := by
  refine ⟨rfl, ?_, ?_⟩
  · simp [uses_temp_then_rename, save_manifest_ops]
  · simp [observed_contents, save_manifest_ops, apply_write_op]

/-! ## Catalog listing: `list_manifests` (src/app.py lines 233-279)

The catalog reads arbitrary JSON documents, so the manifest here is an
untyped JSON value and the Pythonic dynamic operations (`dict.get`,
truthiness, iteration, `float(...)`) are modelled exactly, returning
`Except` where CPython raises.  A manifest file on disk is its parse result
(`none` when reading raised `OSError` or `json.JSONDecodeError` — exactly
the two exceptions the code catches and skips) together with the directory
name and the file's mtime (`none` when `stat` raises, turned into `0.0`). -/

inductive Json where
  | null : Json
  | bool : Bool → Json
  | num : ℚ → Json
  | str : String → Json
  | arr : List Json → Json
  | obj : List (String × Json) → Json

/-- Structural equality of JSON values (stands in for Python `==` in the
`label not in resolutions` membership test; the `f"{height}p"` string
rendering is abstracted to the height value itself). -/
def jsonBeq : Json → Json → Bool
  | Json.null, Json.null => true
  | Json.bool a, Json.bool b => a == b
  | Json.num a, Json.num b => a == b
  | Json.str a, Json.str b => a == b
  | Json.arr [], Json.arr [] => true
  | Json.arr (x :: xs), Json.arr (y :: ys) =>
      jsonBeq x y && jsonBeq (Json.arr xs) (Json.arr ys)
  | Json.obj [], Json.obj [] => true
  | Json.obj ((k, v) :: xs), Json.obj ((k2, v2) :: ys) =>
      k == k2 && jsonBeq v v2 && jsonBeq (Json.obj xs) (Json.obj ys)
  | _, _ => false

/-- Python truthiness of a JSON-derived value. -/
def Json.truthy : Json → Bool
  | Json.null => false
  | Json.bool b => b
  | Json.num q => decide (q ≠ 0)
  | Json.str s => !(s == "")
  | Json.arr l => !l.isEmpty
  | Json.obj l => !l.isEmpty

/-- Python `a or b`. -/
def pyOr (a b : Json) : Json := if a.truthy then a else b

/-- `value.get(key)` — raises `AttributeError` unless `value` is a dict; an
absent key yields Python `None`, modelled as `Json.null` (which is also what
a present JSON `null` loads as). -/
def getPy (j : Json) (key : String) : Except String Json :=
  match j with
  | Json.obj fields => Except.ok ((fields.lookup key).getD Json.null)
  | _ => Except.error "AttributeError: no attribute get"

/-- `value.get(key, default)`. -/
def getPyD (j : Json) (key : String) (default : Json) : Except String Json :=
  match j with
  | Json.obj fields => Except.ok ((fields.lookup key).getD default)
  | _ => Except.error "AttributeError: no attribute get"

/-- Python `for x in value`: arrays iterate elements, strings their
characters, dicts their keys; other values raise `TypeError`. -/
def pyIter (j : Json) : Except String (List Json) :=
  match j with
  | Json.arr l => Except.ok l
  | Json.str s => Except.ok (s.data.map (fun c => Json.str (String.mk [c])))
  | Json.obj fields => Except.ok (fields.map (fun kv => Json.str kv.1))
  | _ => Except.error "TypeError: object is not iterable"

/-- Python `float(value)` on a JSON-derived value.  Numeric strings do parse
in CPython; that case is not modelled (no verified path reaches it) and is
mapped to an error. -/
def pyFloat (j : Json) : Except String ℚ :=
  match j with
  | Json.num q => Except.ok q
  | Json.bool b => Except.ok (if b then 1 else 0)
  | Json.null => Except.error "TypeError: float() argument is None"
  | Json.str _ => Except.error "float(str) not modelled"
  | Json.arr _ => Except.error "TypeError: float() argument must not be a sequence"
  | Json.obj _ => Except.error "TypeError: float() argument must not be a mapping"

structure ManifestFile where
  dir_name : String
  parsed : Option Json
  mtime : Option ℚ

structure CatalogEntry where
  id : Json
  title : Json
  created_at : Json
  resolutions : List Json
  created_at_ts : Json

/-- Body of the per-variant loop collecting distinct height labels. -/
def resolutions_step (acc : List Json) (variant : Json) :
    Except String (List Json) := do
  let height ← getPy variant "height"
  if height.truthy then
    if acc.any (fun l => jsonBeq l height) then pure acc
    else pure (acc ++ [height])
  else pure acc

def collect_resolutions (variants : List Json) : Except String (List Json) :=
  variants.foldlM resolutions_step []

def build_catalog_entry (mf : ManifestFile) (data : Json) :
    Except String CatalogEntry := do
  let pid_raw ← getPy data "playlist_id"
  let playlist_id := pyOr pid_raw (Json.str mf.dir_name)
  let source ← getPyD data "source" (Json.obj [])
  let fname_raw ← getPy source "filename"
  let filename := pyOr fname_raw playlist_id
  let created_at ← getPy data "created_at"
  let ts_raw ← getPy data "created_at_ts"
  let numeric_created_at : Json :=
    match ts_raw with
    | Json.null => Json.num (mf.mtime.getD 0)
    | v => v
  let variants ← getPyD data "variants" (Json.arr [])
  let vlist ← pyIter variants
  let resolutions ← collect_resolutions vlist
  pure ⟨playlist_id, filename, created_at, resolutions, numeric_created_at⟩

/-- One step of the scan over manifest files: an unreadable or unparseable
file (`parsed = none`) is skipped, any other per-file error propagates. -/
def manifest_scan_step (acc : List CatalogEntry) (mf : ManifestFile) :
    Except String (List CatalogEntry) :=
  match mf.parsed with
  | none => pure acc
  | some data => do
      let e ← build_catalog_entry mf data
      pure (acc ++ [e])

/-- `sort_key(item)`: `float(item.get("created_at_ts") or 0.0)`. -/
def catalog_sort_key (e : CatalogEntry) : Except String ℚ :=
  pyFloat (pyOr e.created_at_ts (Json.num 0))

def list_manifests (files : List ManifestFile) :
    Except String (List CatalogEntry) := do
  let entries ← files.foldlM manifest_scan_step []
  let keyed ← entries.mapM (fun e => do
    let k ← catalog_sort_key e
    pure (k, e))
  pure ((sortDescBy Prod.fst keyed).map Prod.snd)

/-! ### Total counterparts used to state what the listing computes

`jget`/`jgetD`/`jarr` are the total projections that agree with the Pythonic
operations on the well-typed documents the app itself writes. -/

def jget (data : Json) (key : String) : Json :=
  match data with
  | Json.obj fields => (fields.lookup key).getD Json.null
  | _ => Json.null

def jgetD (data : Json) (key : String) (default : Json) : Json :=
  match data with
  | Json.obj fields => (fields.lookup key).getD default
  | _ => default

def jarr : Json → List Json
  | Json.arr l => l
  | _ => []

def wellTypedVariant (v : Json) : Bool :=
  match v with
  | Json.obj _ => true
  | _ => false

/-- A parsed manifest the listing can process to completion: a JSON object
whose `source` is an object (or absent), whose `variants` is an array of
objects (or absent), and whose `created_at_ts` is numeric or null/absent. -/
def wellTypedManifest (data : Json) : Bool :=
  match data with
  | Json.obj fields =>
      (match fields.lookup "source" with
        | none => true
        | some (Json.obj _) => true
        | some _ => false) &&
      (match fields.lookup "variants" with
        | none => true
        | some (Json.arr l) => l.all wellTypedVariant
        | some _ => false) &&
      (match fields.lookup "created_at_ts" with
        | none => true
        | some Json.null => true
        | some (Json.num _) => true
        | some _ => false)
  | _ => false

def resolutions_step_total (acc : List Json) (variant : Json) : List Json :=
  if (jget variant "height").truthy then
    if acc.any (fun l => jsonBeq l (jget variant "height")) then acc
    else acc ++ [jget variant "height"]
  else acc

def collect_resolutions_total (variants : List Json) : List Json :=
  variants.foldl resolutions_step_total []

/-- The catalog entry the code builds from a manifest, as a total function. -/
def catalog_entry_spec (mf : ManifestFile) (data : Json) : CatalogEntry :=
  { id := pyOr (jget data "playlist_id") (Json.str mf.dir_name)
    title := pyOr (jget (jgetD data "source" (Json.obj [])) "filename")
      (pyOr (jget data "playlist_id") (Json.str mf.dir_name))
    created_at := jget data "created_at"
    resolutions := collect_resolutions_total (jarr (jgetD data "variants" (Json.arr [])))
    created_at_ts :=
      match jget data "created_at_ts" with
      | Json.null => Json.num (mf.mtime.getD 0)
      | v => v }

/-- The numeric sort key of an entry whose `created_at_ts` is numeric. -/
def catalog_sort_key_spec (e : CatalogEntry) : ℚ :=
  match e.created_at_ts with
  | Json.num q => q
  | _ => 0

/-- The entries the listing keeps: parse failures are skipped. -/
def catalog_entries (files : List ManifestFile) : List CatalogEntry :=
  files.filterMap (fun mf => mf.parsed.map (catalog_entry_spec mf))

theorem resolutions_step_ok (acc : List Json) (v : Json)
    (h : wellTypedVariant v = true) :
    resolutions_step acc v = Except.ok (resolutions_step_total acc v) := by
  cases v with
  | obj f =>
    simp only [resolutions_step, resolutions_step_total, getPy, jget,
      Bind.bind, Except.bind, pure, Except.pure]
    split
    · split <;> rfl
    · rfl
  | null => simp [wellTypedVariant] at h
  | bool b => simp [wellTypedVariant] at h
  | num q => simp [wellTypedVariant] at h
  | str s => simp [wellTypedVariant] at h
  | arr l => simp [wellTypedVariant] at h

theorem collect_resolutions_fold_ok (l : List Json) (acc : List Json)
    (h : l.all wellTypedVariant = true) :
    l.foldlM resolutions_step acc =
      Except.ok (l.foldl resolutions_step_total acc) := by
  induction l generalizing acc with
  | nil => rfl
  | cons v vs ih =>
    rw [List.all_cons, Bool.and_eq_true] at h
    rw [List.foldlM_cons, resolutions_step_ok acc v h.1]
    show vs.foldlM resolutions_step (resolutions_step_total acc v) = _
    rw [ih _ h.2, List.foldl_cons]

theorem build_catalog_entry_ok (mf : ManifestFile) (data : Json)
    (h : wellTypedManifest data = true) :
    build_catalog_entry mf data = Except.ok (catalog_entry_spec mf data) := by
  cases data with
  | obj fields =>
    rw [wellTypedManifest] at h
    rw [Bool.and_eq_true, Bool.and_eq_true] at h
    obtain ⟨⟨hsrc, hvars⟩, hts⟩ := h
    have hsf : ∃ sf, (fields.lookup "source").getD (Json.obj []) = Json.obj sf := by
      rcases hS : fields.lookup "source" with _ | src
      · exact ⟨[], rfl⟩
      · rw [hS] at hsrc
        cases src with
        | obj sf => exact ⟨sf, rfl⟩
        | null => simp at hsrc
        | bool b => simp at hsrc
        | num q => simp at hsrc
        | str s => simp at hsrc
        | arr l => simp at hsrc
    obtain ⟨sf, hsf⟩ := hsf
    have hvl : ∃ vl, (fields.lookup "variants").getD (Json.arr []) = Json.arr vl ∧
        vl.all wellTypedVariant = true := by
      rcases hV : fields.lookup "variants" with _ | v
      · exact ⟨[], rfl, rfl⟩
      · rw [hV] at hvars
        cases v with
        | arr vl => exact ⟨vl, rfl, hvars⟩
        | null => simp at hvars
        | bool b => simp at hvars
        | num q => simp at hvars
        | str s => simp at hvars
        | obj o => simp at hvars
    obtain ⟨vl, hvl, hall⟩ := hvl
    simp only [build_catalog_entry, catalog_entry_spec, getPy, getPyD, jget, jgetD,
      jarr, hsf, hvl, collect_resolutions, collect_resolutions_total,
      collect_resolutions_fold_ok vl [] hall, pyIter,
      Bind.bind, Except.bind, pure, Except.pure]
  | null => simp [wellTypedManifest] at h
  | bool b => simp [wellTypedManifest] at h
  | num q => simp [wellTypedManifest] at h
  | str s => simp [wellTypedManifest] at h
  | arr l => simp [wellTypedManifest] at h

theorem manifest_scan_ok (files : List ManifestFile) (acc : List CatalogEntry)
    (hw : files.all (fun mf =>
      match mf.parsed with
      | none => true
      | some d => wellTypedManifest d) = true) :
    files.foldlM manifest_scan_step acc =
      Except.ok (acc ++ catalog_entries files) := by
  induction files generalizing acc with
  | nil => simp [catalog_entries, pure, Except.pure]
  | cons mf fs ih =>
    rw [List.all_cons, Bool.and_eq_true] at hw
    rw [List.foldlM_cons]
    rcases hp : mf.parsed with _ | d
    · have hstep : manifest_scan_step acc mf = Except.ok acc := by
        simp [manifest_scan_step, hp, pure, Except.pure]
      rw [hstep]
      show fs.foldlM manifest_scan_step acc = _
      rw [ih acc hw.2]
      simp [catalog_entries, hp]
    · have hwd : wellTypedManifest d = true := by
        have h1 := hw.1
        rw [hp] at h1
        exact h1
      have hstep : manifest_scan_step acc mf =
          Except.ok (acc ++ [catalog_entry_spec mf d]) := by
        simp [manifest_scan_step, hp, build_catalog_entry_ok mf d hwd,
          Bind.bind, Except.bind, pure, Except.pure]
      rw [hstep]
      show fs.foldlM manifest_scan_step (acc ++ [catalog_entry_spec mf d]) = _
      rw [ih _ hw.2]
      simp [catalog_entries, hp]

theorem catalog_sort_key_ok (e : CatalogEntry) (q : ℚ)
    (h : e.created_at_ts = Json.num q) :
    catalog_sort_key e = Except.ok (catalog_sort_key_spec e) := by
  unfold catalog_sort_key catalog_sort_key_spec pyOr
  rw [h]
  by_cases h0 : q = 0
  · simp [Json.truthy, h0, pyFloat]
  · simp [Json.truthy, h0, pyFloat]

theorem catalog_entry_spec_ts_num (mf : ManifestFile) (data : Json)
    (h : wellTypedManifest data = true) :
    ∃ q : ℚ, (catalog_entry_spec mf data).created_at_ts = Json.num q := by
  cases data with
  | obj fields =>
    rw [wellTypedManifest] at h
    rw [Bool.and_eq_true, Bool.and_eq_true] at h
    obtain ⟨_, hts⟩ := h
    rcases hT : fields.lookup "created_at_ts" with _ | v
    · exact ⟨mf.mtime.getD 0, by simp [catalog_entry_spec, jget, hT]⟩
    · rw [hT] at hts
      cases v with
      | null => exact ⟨mf.mtime.getD 0, by simp [catalog_entry_spec, jget, hT]⟩
      | num q => exact ⟨q, by simp [catalog_entry_spec, jget, hT]⟩
      | bool b => simp at hts
      | str s => simp at hts
      | arr l => simp at hts
      | obj o => simp at hts
  | null => simp [wellTypedManifest] at h
  | bool b => simp [wellTypedManifest] at h
  | num q => simp [wellTypedManifest] at h
  | str s => simp [wellTypedManifest] at h
  | arr l => simp [wellTypedManifest] at h

theorem keyed_entries_ok (es : List CatalogEntry)
    (h : ∀ e ∈ es, ∃ q : ℚ, e.created_at_ts = Json.num q) :
    es.mapM (fun e => do
      let k ← catalog_sort_key e
      pure (k, e)) =
      Except.ok (es.map (fun e => (catalog_sort_key_spec e, e))) := by
  induction es with
  | nil => rfl
  | cons e es ih =>
    obtain ⟨q, hq⟩ := h e (List.mem_cons_self e es)
    rw [List.mapM_cons, catalog_sort_key_ok e q hq,
      ih (fun x hx => h x (List.mem_cons_of_mem e hx))]
    simp [Bind.bind, Except.bind, pure, Except.pure]

theorem except_ok_bind {α β ε : Type} (a : α) (f : α → Except ε β) :
    (Except.ok a >>= f) = f a := rfl

theorem mem_catalog_entries (files : List ManifestFile) (e : CatalogEntry)
    (he : e ∈ catalog_entries files) :
    ∃ mf ∈ files, ∃ d, mf.parsed = some d ∧ e = catalog_entry_spec mf d := by
  unfold catalog_entries at he
  rw [List.mem_filterMap] at he
  obtain ⟨mf, hmf, hmap⟩ := he
  rcases hp : mf.parsed with _ | d
  · rw [hp] at hmap
    exact absurd hmap (by simp)
  · rw [hp] at hmap
    refine ⟨mf, hmf, d, hp, ?_⟩
    simp only [Option.map_some'] at hmap
    exact (Option.some_inj.mp hmap).symm

/-- C8 amended: the listing skips exactly the files that could not be read or
JSON-parsed; over well-typed manifests it succeeds and returns the remaining
entries sorted by creation epoch descending (stable, ties in input order),
where an entry whose `created_at_ts` field is absent (or null) carries the
manifest file's mtime (0 when even `stat` failed) as its epoch.  (A parseable
manifest whose fields are not well-typed makes the whole listing fail — see
the counterexample.) -/
theorem list_manifests_skips_and_sorts (files : List ManifestFile)
    (hw : files.all (fun mf =>
      match mf.parsed with
      | none => true
      | some d => wellTypedManifest d) = true) :
    list_manifests files =
      Except.ok (sortDescBy catalog_sort_key_spec (catalog_entries files)) ∧
    (sortDescBy catalog_sort_key_spec (catalog_entries files)).Pairwise
      (fun a b => catalog_sort_key_spec b ≤ catalog_sort_key_spec a) ∧
    (∀ k : ℚ,
      (sortDescBy catalog_sort_key_spec (catalog_entries files)).filter
        (fun e => decide (catalog_sort_key_spec e = k)) =
      (catalog_entries files).filter
        (fun e => decide (catalog_sort_key_spec e = k))) ∧
    (∀ mf ∈ files, ∀ d, mf.parsed = some d →
      jget d "created_at_ts" = Json.null →
      (catalog_entry_spec mf d).created_at_ts = Json.num (mf.mtime.getD 0)) := by
  refine ⟨?_, sortDescBy_pairwise _ _, fun k => sortDescBy_filter_key _ k _, ?_⟩
  · have hnum : ∀ e ∈ catalog_entries files,
        ∃ q : ℚ, e.created_at_ts = Json.num q := by
      intro e he
      obtain ⟨mf, hmf, d, hp, rfl⟩ := mem_catalog_entries files e he
      have hwd : wellTypedManifest d = true := by
        have h1 := (List.all_eq_true.mp hw) mf hmf
        rw [hp] at h1
        exact h1
      exact catalog_entry_spec_ts_num mf d hwd
    unfold list_manifests
    rw [manifest_scan_ok files [] hw, List.nil_append, except_ok_bind,
      keyed_entries_ok (catalog_entries files) hnum, except_ok_bind,
      sortDescBy_pair_snd]
    rfl
  · intro mf _ d _ hnull
    simp [catalog_entry_spec, hnull]

def wtManifestA : ManifestFile :=
  ⟨"alpha", some (Json.obj [("playlist_id", Json.str "alpha"),
    ("created_at_ts", Json.num 5)]), some 10⟩

def wtManifestBroken : ManifestFile := ⟨"broken", none, some 20⟩

def wtManifestOld : ManifestFile := ⟨"old", some (Json.obj []), some 7⟩

/-- Witness for C8 on three concrete files: one normal manifest, one
unreadable file, one old-schema manifest without `created_at_ts`. -/
theorem list_manifests_skips_and_sorts_witness :
    ([wtManifestA, wtManifestBroken, wtManifestOld].all (fun mf =>
      match mf.parsed with
      | none => true
      | some d => wellTypedManifest d) = true) ∧
    (list_manifests [wtManifestA, wtManifestBroken, wtManifestOld] =
      Except.ok (sortDescBy catalog_sort_key_spec
        (catalog_entries [wtManifestA, wtManifestBroken, wtManifestOld])) ∧
    (sortDescBy catalog_sort_key_spec
      (catalog_entries [wtManifestA, wtManifestBroken, wtManifestOld])).Pairwise
        (fun a b => catalog_sort_key_spec b ≤ catalog_sort_key_spec a) ∧
    (∀ k : ℚ,
      (sortDescBy catalog_sort_key_spec
        (catalog_entries [wtManifestA, wtManifestBroken, wtManifestOld])).filter
          (fun e => decide (catalog_sort_key_spec e = k)) =
      (catalog_entries [wtManifestA, wtManifestBroken, wtManifestOld]).filter
          (fun e => decide (catalog_sort_key_spec e = k))) ∧
    (∀ mf ∈ [wtManifestA, wtManifestBroken, wtManifestOld], ∀ d,
      mf.parsed = some d → jget d "created_at_ts" = Json.null →
      (catalog_entry_spec mf d).created_at_ts = Json.num (mf.mtime.getD 0))) :=
  ⟨by decide,
    list_manifests_skips_and_sorts [wtManifestA, wtManifestBroken, wtManifestOld]
      (by decide)⟩

def ceGoodFile : ManifestFile :=
  ⟨"g", some (Json.obj [("playlist_id", Json.str "g"),
    ("created_at_ts", Json.num 5)]), some 10⟩

def ceBadFile : ManifestFile :=
  ⟨"b", some (Json.obj [("created_at_ts", Json.arr [Json.num 1])]), some 20⟩

/-- Counterexample to C8 as stated: a manifest that reads and JSON-parses
fine but whose `created_at_ts` is a non-empty array is malformed, yet it is
not skipped — the sort-key computation raises `TypeError` and the whole
listing fails, although alone the good manifest lists fine. -/
theorem list_manifests_fails_on_malformed_manifest :
    list_manifests [ceGoodFile, ceBadFile] =
      Except.error "TypeError: float() argument must not be a sequence" ∧
    list_manifests [ceGoodFile] =
      Except.ok [⟨Json.str "g", Json.str "g", Json.null, [], Json.num 5⟩] := by
  constructor <;> rfl

end VideoStream
